import Mathlib

namespace SocialPulse

/-!
Verification of the Social-Pulse core against its specification.

Two components are modelled, following the source:
* `api/cache.py` — the TTL cache (`CacheManager.get` / `set` / `clear`) as pure
  state-passing functions over an association list, with wall-clock instants as
  rationals (minutes), and `get_or_compute` as a small-step interleaving
  semantics of the asyncio event loop (one atomic step per run-to-await block).
* `src/aggregators/stats_aggregator.py` — `StatsAggregator.aggregate` as a pure
  function of the item list, the `days_back` argument and the current clock
  reading (which the source obtains from `datetime.now()`).

Python's `round(x, n)` is modelled with Mathlib's `round` (round half away from
zero at exact ties, where CPython uses round-half-even on binary floats; no
theorem below depends on the tie case).
-/
/-- Python `round(x, 1)` on exact rationals. -/
def round1 (q : ℚ) : ℚ := (round (q * 10) : ℚ) / 10

/-- Python `round(x, 2)` on exact rationals. -/
def round2 (q : ℚ) : ℚ := (round (q * 100) : ℚ) / 100

/-! ## The TTL cache: `api/cache.py`, `CacheManager` (functional part)

The Python object holds `self.cache : Dict[str, Tuple[Any, datetime]]` and
`self.default_ttl`.  The dict is modelled as an association list in insertion
order (Python dicts preserve insertion order and keep a key's position when it
is overwritten); timestamps are rationals, in minutes, so that
`(datetime.now() - timestamp).total_seconds() / 60` becomes `now - ts`. -/
/-- The dictionary returned by a `CacheManager.get` hit (cache.py lines 23-29).
`cached` is always `True` in the source and is omitted. -/
structure CacheHit (V : Type) where
  data : V
  cached_at : ℚ
  age_minutes : ℚ
  expires_in_minutes : ℚ
deriving DecidableEq

/-- State of a `CacheManager`: the `cache` dict and `default_ttl` (minutes). -/
structure CacheManager (V : Type) where
  cache : List (String × V × ℚ)
  default_ttl : ℚ
deriving DecidableEq

/-- `self.cache[key]` — first (unique, by dict semantics) entry with this key. -/
def lookupEntry {V : Type} (c : List (String × V × ℚ)) (k : String) : Option (V × ℚ) :=
  (c.find? (fun e => decide (e.1 = k))).map (fun e => e.2)

/-- `self.cache[key] = (value, now)`: overwrite in place, or append. -/
def setEntry {V : Type} (c : List (String × V × ℚ)) (k : String) (v : V) (now : ℚ) :
    List (String × V × ℚ) :=
  if c.any (fun e => decide (e.1 = k)) then
    c.map (fun e => if e.1 = k then (k, v, now) else e)
  else
    c ++ [(k, v, now)]

/-- `CacheManager.set` (cache.py lines 33-35). -/
def CacheManager.set {V : Type} (s : CacheManager V) (k : String) (v : V) (now : ℚ) :
    CacheManager V :=
  { s with cache := setEntry s.cache k v now }

/-- `CacheManager.get` (cache.py lines 13-31).  `ttl = max_age_minutes or
self.default_ttl`: Python `or` takes the default when `max_age_minutes` is
`None` **or zero** (falsy). -/
def CacheManager.get {V : Type} (s : CacheManager V) (key : String) (now : ℚ)
    (max_age_minutes : Option ℚ) : Option (CacheHit V) :=
  match lookupEntry s.cache key with
  | none => none
  | some (v, ts) =>
    let age := now - ts
    let ttl := match max_age_minutes with
      | some m => if m = 0 then s.default_ttl else m
      | none => s.default_ttl
    if age < ttl then some ⟨v, ts, round1 age, round1 (ttl - age)⟩ else none

/-- Membership test used by `pattern in k` (Python substring containment),
on character lists. -/
def subOf (p : List Char) : List Char → Bool
  | [] => p.isEmpty
  | b :: as => p.isPrefixOf (b :: as) || subOf p as

/-- `CacheManager.clear` (cache.py lines 37-44).  `if pattern:` is falsy for
`None` and for the empty string; otherwise every key containing `pattern` as a
substring is deleted (`del` removes the unique dict entry for that key). -/
def CacheManager.clear {V : Type} (s : CacheManager V) (pattern : Option String) :
    CacheManager V :=
  match pattern with
  | none => { s with cache := [] }
  | some p =>
    if p.isEmpty then { s with cache := [] }
    else
      let keysToDelete := (s.cache.map (fun e => e.1)).filter
        (fun k => subOf p.toList k.toList)
      let remaining := keysToDelete.foldl
        (fun c k => c.filter (fun e => decide (e.1 ≠ k))) s.cache
      { s with cache := remaining }

/-! ## The stats aggregator: `src/aggregators/stats_aggregator.py`

`AnalyzedItem` (from `src/analyzers/models.py`) is modelled with exactly the
fields `StatsAggregator` reads.  `sentiment` is `Optional[Literal["positive",
"neutral", "negative"]]` (may be `None`); `sentiment_score` and `timestamp`
are required by the aggregation code paths (a `None` there raises, a
precondition violation per the spec) and are modelled total.  `timestamp` is
represented by its calendar date `tsDate : ℤ` — the aggregator only ever reads
`timestamp.date()`, and ISO date strings compare like the underlying dates.
The clock `now` used for `date_range` is an instant in minutes; `timedelta(
days=days_back)` is `days_back * 1440` minutes. -/
inductive Sentiment where
  | positive
  | neutral
  | negative
deriving DecidableEq

inductive RespStatus where
  | pending
  | replied
  | in_campaign
  | ignored
deriving DecidableEq

structure AnalyzedItem where
  id : Option String
  tsDate : ℤ
  sentiment : Option Sentiment
  sentiment_score : ℚ
  rating : Option ℚ
  topics : List String
  category : Option String
  key_insight : Option String
  url : Option String
  actionable : Bool
  response_status : RespStatus
  platform : Option String
deriving DecidableEq

structure DateRange where
  start_date : ℤ
  end_date : ℤ
deriving DecidableEq

structure SentimentCounts where
  positive : ℕ
  neutral : ℕ
  negative : ℕ
deriving DecidableEq

structure SentimentPcts where
  positive : ℚ
  neutral : ℚ
  negative : ℚ
deriving DecidableEq

structure TrendPoint where
  date : ℤ
  score : ℚ
  count : ℕ
deriving DecidableEq

structure TopicStat where
  topic : String
  count : ℕ
  avg_sentiment : ℚ
deriving DecidableEq

structure ActionItem where
  id : Option String
  sentiment : Option Sentiment
  category : Option String
  topics : List String
  key_insight : Option String
  url : Option String
deriving DecidableEq

structure RespStats where
  pending : ℕ
  replied : ℕ
  in_campaign : ℕ
  ignored : ℕ
deriving DecidableEq

structure StatsReport where
  total_mentions : ℕ
  date_range : DateRange
  sentiment_breakdown : SentimentCounts
  sentiment_percentages : SentimentPcts
  average_sentiment_score : ℚ
  average_rating : Option ℚ
  sentiment_trend : List TrendPoint
  hot_topics : List TopicStat
  action_required_count : ℕ
  action_required_items : List ActionItem
  response_stats : RespStats
  category_breakdown : List (Option String × ℕ)
  platform_breakdown : List (Option String × ℕ)
deriving DecidableEq

/-- `sum(l) / len(l)`. -/
def mean (l : List ℚ) : ℚ := l.sum / l.length

/-- `Counter([item.sentiment for ...]).get(s, 0)`: the number of occurrences. -/
def sentCount (items : List AnalyzedItem) (s : Sentiment) : ℕ :=
  items.countP (fun it => decide (it.sentiment = some s))

/-- `Counter([item.response_status for ...]).get(st, 0)`. -/
def statusCount (items : List AnalyzedItem) (st : RespStatus) : ℕ :=
  items.countP (fun it => decide (it.response_status = st))

/-- Lines 70-74: `round(count / len(items) * 100, 1)` per bucket. -/
def sentimentPercentages (items : List AnalyzedItem) : SentimentPcts :=
  ⟨round1 ((sentCount items .positive : ℚ) / (items.length : ℚ) * 100),
    round1 ((sentCount items .neutral : ℚ) / (items.length : ℚ) * 100),
    round1 ((sentCount items .negative : ℚ) / (items.length : ℚ) * 100)⟩

/-- Lines 40-44 and 76: mean rating over items with a rating, `None` when
there are none; at the report, `round(avg_rating, 1) if avg_rating else None`
(`if avg_rating` is falsy both for `None` and for an exact zero mean). -/
def avgRatingField (items : List AnalyzedItem) : Option ℚ :=
  let withR := items.filter (fun it => it.rating.isSome)
  if withR.isEmpty then none
  else
    let avg := mean (withR.map (fun it => it.rating.getD 0))
    if avg = 0 then none else some (round1 avg)

/-- One step of the line 102-107 group-by-date dict build. -/
def addTrendItem (acc : List (ℤ × List AnalyzedItem)) (it : AnalyzedItem) :
    List (ℤ × List AnalyzedItem) :=
  if acc.any (fun b => decide (b.1 = it.tsDate)) then
    acc.map (fun b => if b.1 = it.tsDate then (b.1, b.2 ++ [it]) else b)
  else acc ++ [(it.tsDate, [it])]

def trendGroups (items : List AnalyzedItem) : List (ℤ × List AnalyzedItem) :=
  items.foldl addTrendItem []

/-- `_calculate_sentiment_trend` (lines 98-119): buckets sorted ascending by
date (the source sorts ISO date strings, which order like the dates), each
with the day's mean sentiment score rounded to 2 decimals and the count. -/
def sentimentTrend (items : List AnalyzedItem) : List TrendPoint :=
  ((trendGroups items).mergeSort (fun a b => decide (a.1 ≤ b.1))).map
    (fun b => ⟨b.1, round2 (mean (b.2.map (fun it => it.sentiment_score))), b.2.length⟩)

structure TopicData where
  count : ℕ
  sentiment_scores : List ℚ
deriving DecidableEq

/-- Lines 126-134: bump the per-topic dict for one topic occurrence. -/
def addTopic (acc : List (String × TopicData)) (t : String) (sc : ℚ) :
    List (String × TopicData) :=
  if acc.any (fun kv => decide (kv.1 = t)) then
    acc.map (fun kv =>
      if kv.1 = t then (t, ⟨kv.2.count + 1, kv.2.sentiment_scores ++ [sc]⟩) else kv)
  else acc ++ [(t, ⟨1, [sc]⟩)]

def topicFold (items : List AnalyzedItem) : List (String × TopicData) :=
  items.foldl
    (fun acc it => it.topics.foldl (fun a t => addTopic a t it.sentiment_score) acc) []

/-- Lines 137-144: one `TopicStat` per dict entry, in encounter order. -/
def topicStatsBase (items : List AnalyzedItem) : List TopicStat :=
  (topicFold items).map (fun kv => ⟨kv.1, kv.2.count, round2 (mean kv.2.sentiment_scores)⟩)

/-- Line 147: `hot_topics.sort(key=lambda x: x["count"], reverse=True)` —
Python's sort is stable, and `reverse=True` keeps equal keys in order. -/
def hotTopicsSorted (items : List AnalyzedItem) : List TopicStat :=
  (topicStatsBase items).mergeSort (fun a b => decide (b.count ≤ a.count))

/-- Line 149: keep the top 10. -/
def hotTopics (items : List AnalyzedItem) : List TopicStat :=
  (hotTopicsSorted items).take 10

/-- `dict(Counter(l))` in encounter order. -/
def bump {α : Type} [DecidableEq α] (acc : List (α × ℕ)) (x : α) : List (α × ℕ) :=
  if acc.any (fun kv => decide (kv.1 = x)) then
    acc.map (fun kv => if kv.1 = x then (kv.1, kv.2 + 1) else kv)
  else acc ++ [(x, 1)]

def counterOf {α : Type} [DecidableEq α] (l : List α) : List (α × ℕ) :=
  l.foldl bump []

/-- `_empty_stats` (lines 177-200). -/
def emptyStats (days_back : ℤ) (now : ℤ) : StatsReport :=
  { total_mentions := 0
    date_range := ⟨now - days_back * 1440, now⟩
    sentiment_breakdown := ⟨0, 0, 0⟩
    sentiment_percentages := ⟨0, 0, 0⟩
    average_sentiment_score := 0
    average_rating := none
    sentiment_trend := []
    hot_topics := []
    action_required_count := 0
    action_required_items := []
    response_stats := ⟨0, 0, 0, 0⟩
    category_breakdown := []
    platform_breakdown := [] }

/-- `StatsAggregator.aggregate` (lines 11-96), with the `datetime.now()`
reading passed explicitly as `now`. -/
def aggregate (items : List AnalyzedItem) (days_back : ℤ) (now : ℤ) : StatsReport :=
  if items.isEmpty then emptyStats days_back now
  else
    { total_mentions := items.length
      date_range := ⟨now - days_back * 1440, now⟩
      sentiment_breakdown :=
        ⟨sentCount items .positive, sentCount items .neutral, sentCount items .negative⟩
      sentiment_percentages := sentimentPercentages items
      average_sentiment_score := round2 (mean (items.map (fun it => it.sentiment_score)))
      average_rating := avgRatingField items
      sentiment_trend := sentimentTrend items
      hot_topics := hotTopics items
      action_required_count := (items.filter (fun it => it.actionable)).length
      action_required_items := ((items.filter (fun it => it.actionable)).take 10).map
        (fun it => ⟨it.id, it.sentiment, it.category, it.topics, it.key_insight, it.url⟩)
      response_stats :=
        ⟨statusCount items .pending, statusCount items .replied,
          statusCount items .in_campaign, statusCount items .ignored⟩
      category_breakdown := counterOf (items.map (fun it => it.category))
      platform_breakdown := counterOf (items.map (fun it => it.platform)) }

/-- Everything in a report except `date_range`. -/
def reportCore (r : StatsReport) :=
  (r.total_mentions, r.sentiment_breakdown, r.sentiment_percentages,
    r.average_sentiment_score, r.average_rating, r.sentiment_trend, r.hot_topics,
    r.action_required_count, r.action_required_items, r.response_stats,
    r.category_breakdown, r.platform_breakdown)

/-- An analyzed item with every optional field absent. -/
def baseItem : AnalyzedItem :=
  ⟨none, 0, none, 0, none, [], none, none, none, false, .pending, none⟩

/-- An item carrying a recognized sentiment. -/
def itemPos : AnalyzedItem := { baseItem with sentiment := some .positive }

/-- An item with a rating. -/
def itemRated2 : AnalyzedItem := { baseItem with rating := some 2 }

/-- Items rated 1, 1 and 2. -/
def itemRated1 : AnalyzedItem := { baseItem with rating := some 1 }

/-! ### Claim C6: hot topics -/
/-- One `(topic, sentiment_score)` pair per topic occurrence, in encounter
order: an item contributes once per occurrence in its own `topics` list. -/
def pairsOf (items : List AnalyzedItem) : List (String × ℚ) :=
  items.flatMap (fun it => it.topics.map (fun t => (t, it.sentiment_score)))

/-- Number of occurrences of topic `t` across all items. -/
def cntKey (ps : List (String × ℚ)) (t : String) : ℕ :=
  ps.countP (fun p => decide (p.1 = t))

/-- The sentiment scores contributed to topic `t`, one per occurrence. -/
def scoresKey (ps : List (String × ℚ)) (t : String) : List ℚ :=
  (ps.filter (fun p => decide (p.1 = t))).map (fun p => p.2)

/-- `topic_data.get(t)`. -/
def lookupTD (acc : List (String × TopicData)) (t : String) : Option TopicData :=
  (acc.find? (fun kv => decide (kv.1 = t))).map (fun kv => kv.2)

/-- The dict's keys are pairwise distinct. -/
def keysND (acc : List (String × TopicData)) : Prop :=
  (acc.map (fun kv => kv.1)).Nodup

/-! ## `get_or_compute` (cache.py lines 46-69): event-loop semantics

The body of `get_or_compute` suspends only at its two `await`s, so each caller
runs as atomic blocks separated by suspension points:

* lines 50-63 (cache probe, in-flight probe, and — on a double miss —
  `create_task` plus registration in `active_requests`) contain no `await` and
  form one atomic step per caller;
* a waiter resumes at line 57-58 when the awaited task has finished and
  returns that task's result (or its exception) in one block;
* the owner resumes at lines 65-69: on success `set` plus the `finally`
  deletion happen in one block before returning; on failure (including
  cancellation, which arrives as an exception out of `await`) the `finally`
  deletion runs and the exception propagates.

The model projects the maps onto one fixed key.  `cache` is the entry for that
key (TTL expiry and `clear` are the nondeterministic `expire` step, so every
wall-clock behavior is covered); `active` is the in-flight entry; task `n` is
the `n`-th `compute_fn` invocation, and the fixed `oracle` gives each
invocation's outcome, as a task's result is fixed once the task exists.
`closed` counts deregistrations, so a "generation" `t` spans from the step
that created task `t` to the step that removed it from `active`. -/
inductive Outcome (V E : Type) where
  | ok (v : V)
  | err (e : E)
deriving DecidableEq

inductive CallerSt (V E : Type) where
  | start (forceRefresh : Bool)
  | waiting (t : ℕ)
  | owner (t : ℕ)
  | doneCached (v : V)
  | doneWaited (t : ℕ) (o : Outcome V E)
  | doneFresh (t : ℕ) (v : V)
  | doneFailed (t : ℕ) (e : E)
deriving DecidableEq

structure Sys (V E : Type) where
  callers : ℕ → CallerSt V E
  cache : Option V
  active : Option ℕ
  nextTask : ℕ
  finished : List ℕ
  closed : ℕ

/-- One scheduler step of the event loop. -/
inductive Step {V E : Type} (oracle : ℕ → Outcome V E) : Sys V E → Sys V E → Prop where
  | startHit (s : Sys V E) (i : ℕ) (v : V) :
      s.callers i = .start false → s.cache = some v →
      Step oracle s { s with callers := Function.update s.callers i (.doneCached v) }
  | startJoin (s : Sys V E) (i : ℕ) (fr : Bool) (t : ℕ) :
      s.callers i = .start fr → (fr = true ∨ s.cache = none) → s.active = some t →
      Step oracle s { s with callers := Function.update s.callers i (.waiting t) }
  | startCompute (s : Sys V E) (i : ℕ) (fr : Bool) :
      s.callers i = .start fr → (fr = true ∨ s.cache = none) → s.active = none →
      Step oracle s { s with
        callers := Function.update s.callers i (.owner s.nextTask),
        active := some s.nextTask, nextTask := s.nextTask + 1 }
  | finishTask (s : Sys V E) (t : ℕ) :
      t < s.nextTask → t ∉ s.finished →
      Step oracle s { s with finished := t :: s.finished }
  | resumeWait (s : Sys V E) (i : ℕ) (t : ℕ) :
      s.callers i = .waiting t → t ∈ s.finished →
      Step oracle s { s with
        callers := Function.update s.callers i (.doneWaited t (oracle t)) }
  | resumeOwnerOk (s : Sys V E) (i : ℕ) (t : ℕ) (v : V) :
      s.callers i = .owner t → t ∈ s.finished → oracle t = .ok v →
      Step oracle s { s with
        callers := Function.update s.callers i (.doneFresh t v),
        cache := some v, active := none, closed := s.closed + 1 }
  | resumeOwnerErr (s : Sys V E) (i : ℕ) (t : ℕ) (e : E) :
      s.callers i = .owner t → t ∈ s.finished → oracle t = .err e →
      Step oracle s { s with
        callers := Function.update s.callers i (.doneFailed t e),
        active := none, closed := s.closed + 1 }
  | expire (s : Sys V E) (v : V) :
      s.cache = some v →
      Step oracle s { s with cache := none }

/-- All callers at their first line, nothing in flight, no task yet; the
cache entry for the key is arbitrary. -/
def initialSys {V E : Type} (s : Sys V E) : Prop :=
  (∀ i, ∃ fr, s.callers i = CallerSt.start fr) ∧ s.active = none ∧
    s.nextTask = 0 ∧ s.finished = [] ∧ s.closed = 0

inductive Reach {V E : Type} (oracle : ℕ → Outcome V E) : Sys V E → Prop where
  | base (s : Sys V E) : initialSys s → Reach oracle s
  | step (s s' : Sys V E) : Reach oracle s → Step oracle s s' → Reach oracle s'

/-- The generation a finished caller joined and the outcome it observed. -/
def genOutcome {V E : Type} : CallerSt V E → Option (ℕ × Outcome V E)
  | .doneWaited t o => some (t, o)
  | .doneFresh t v => some (t, .ok v)
  | .doneFailed t e => some (t, .err e)
  | _ => none

/-- Inductive invariant: task creations count one per generation window; an
owner's task is the registered one and already allocated; generations have a
unique owner; finished callers observed their generation's oracle outcome. -/
def SysInv {V E : Type} (oracle : ℕ → Outcome V E) (s : Sys V E) : Prop :=
  (s.nextTask = s.closed + (if s.active.isSome then 1 else 0)) ∧
    (∀ i t, s.callers i = .owner t → s.active = some t ∧ t < s.nextTask) ∧
    (∀ i j ti tj, s.callers i = .owner ti → s.callers j = .owner tj → i = j) ∧
    (∀ i t o, genOutcome (s.callers i) = some (t, o) → o = oracle t)

def w1oracle : ℕ → Outcome ℕ ℕ := fun _ => Outcome.ok 7

def w1s0 : Sys ℕ ℕ := ⟨fun _ => CallerSt.start false, none, none, 0, [], 0⟩

def w1s1 : Sys ℕ ℕ :=
  { w1s0 with
    callers := Function.update w1s0.callers 0 (CallerSt.owner w1s0.nextTask)
    active := some w1s0.nextTask
    nextTask := w1s0.nextTask + 1 }

def w1s2 : Sys ℕ ℕ :=
  { w1s1 with callers := Function.update w1s1.callers 1 (CallerSt.waiting 0) }

def w1s3 : Sys ℕ ℕ := { w1s2 with finished := 0 :: w1s2.finished }

def w1s4 : Sys ℕ ℕ :=
  { w1s3 with
    callers := Function.update w1s3.callers 1 (CallerSt.doneWaited 0 (w1oracle 0)) }

def w1s5 : Sys ℕ ℕ :=
  { w1s4 with
    callers := Function.update w1s4.callers 0 (CallerSt.doneFresh 0 7)
    cache := some 7
    active := none
    closed := w1s4.closed + 1 }

/-- The state after the owner of failed task `t` resumes: the caller observes
exactly the failure `e`, the in-flight entry is removed, nothing else moves. -/
def failStep {V E : Type} (s : Sys V E) (i t : ℕ) (e : E) : Sys V E :=
  { s with
    callers := Function.update s.callers i (CallerSt.doneFailed t e)
    active := none
    closed := s.closed + 1 }

/-- The state after caller `j` registers a fresh computation. -/
def computeStep {V E : Type} (s : Sys V E) (j : ℕ) : Sys V E :=
  { s with
    callers := Function.update s.callers j (CallerSt.owner s.nextTask)
    active := some s.nextTask
    nextTask := s.nextTask + 1 }

def w3oracle : ℕ → Outcome ℕ ℕ := fun _ => Outcome.err 42

def w3s0 : Sys ℕ ℕ := ⟨fun _ => CallerSt.start false, none, none, 0, [], 0⟩

def w3s1 : Sys ℕ ℕ :=
  { w3s0 with
    callers := Function.update w3s0.callers 0 (CallerSt.owner w3s0.nextTask)
    active := some w3s0.nextTask
    nextTask := w3s0.nextTask + 1 }

def w3s2 : Sys ℕ ℕ := { w3s1 with finished := 0 :: w3s1.finished }

/-! ### Cache lemmas -/
theorem find?_map_update {V : Type} (c : List (String × V × ℚ)) (k : String)
    (v : V) (now : ℚ) :
    (c.map (fun e => if e.1 = k then (k, v, now) else e)).find?
        (fun e => decide (e.1 = k))
      = (c.find? (fun e => decide (e.1 = k))).map (fun _ => (k, v, now)) := by
  induction c with
  | nil => rfl
  | cons a as ih =>
    by_cases ha : a.1 = k
    · simp [List.find?_cons, ha]
    · simp [List.find?_cons, ha, ih]

theorem lookupEntry_setEntry_self {V : Type} (c : List (String × V × ℚ)) (k : String)
    (v : V) (now : ℚ) : lookupEntry (setEntry c k v now) k = some (v, now) := by
  unfold setEntry lookupEntry
  by_cases h : c.any (fun e => decide (e.1 = k))
  · rw [if_pos h, find?_map_update]
    cases hfind : c.find? (fun e => decide (e.1 = k)) with
    | none =>
      exfalso
      rw [List.find?_eq_none] at hfind
      rw [List.any_eq_true] at h
      obtain ⟨e₀, he₀, hk₀⟩ := h
      exact hfind e₀ he₀ hk₀
    | some x => rfl
  · rw [if_neg h]
    rw [List.find?_append]
    have hnone : c.find? (fun e => decide (e.1 = k)) = none := by
      rw [List.find?_eq_none]
      intro x hx
      rw [List.any_eq_true] at h
      exact fun hc => h ⟨x, hx, hc⟩
    rw [hnone]
    simp [List.find?]

theorem subOf_iff (p : List Char) (l : List Char) : subOf p l = true ↔ p <:+: l := by
  induction l with
  | nil =>
    simp only [subOf, List.isEmpty_iff, List.infix_nil]
  | cons b as ih =>
    simp only [subOf, Bool.or_eq_true, List.isPrefixOf_iff_prefix, ih,
      List.infix_cons_iff]

theorem mem_foldl_filter {V : Type} (ks : List String) (c : List (String × V × ℚ))
    (e : String × V × ℚ) :
    e ∈ ks.foldl (fun c k => c.filter (fun x => decide (x.1 ≠ k))) c ↔
      e ∈ c ∧ ∀ k ∈ ks, e.1 ≠ k := by
  induction ks generalizing c with
  | nil => simp
  | cons k ks ih =>
    rw [List.foldl_cons, ih]
    simp only [List.mem_filter, decide_eq_true_eq, List.mem_cons]
    constructor
    · rintro ⟨⟨hc, hk⟩, hrest⟩
      exact ⟨hc, fun k' hk' => hk'.elim (fun h => h ▸ hk) (hrest k')⟩
    · rintro ⟨hc, hall⟩
      exact ⟨⟨hc, hall k (Or.inl rfl)⟩, fun k' hk' => hall k' (Or.inr hk')⟩

/-! ### Claims C2, C8, C10 -/
/-- C2 (amended): after `set(k, v)` at time `t0`, `get(k, maxAge = T)` with a
**nonzero** `T` returns the stored value when the elapsed time is strictly less
than `T` and absent when it is at least `T` (the boundary counts as expired).
At `T = 0` the source falls back to the default TTL (see the counterexample
and claim C10). -/
theorem c2_ttl_boundary {V : Type} (s : CacheManager V) (k : String) (v : V)
    (t0 elapsed T : ℚ) (hT : T ≠ 0) :
    ((s.set k v t0).get k (t0 + elapsed) (some T)).map CacheHit.data
      = if elapsed < T then some v else none := by
  unfold CacheManager.get CacheManager.set
  simp only [lookupEntry_setEntry_self]
  rw [if_neg hT]
  have hage : t0 + elapsed - t0 = elapsed := by ring
  rw [hage]
  by_cases h : elapsed < T
  · rw [if_pos h, if_pos h]
    rfl
  · rw [if_neg h, if_neg h]
    rfl

/-- Witness for C2 at concrete inputs. -/
theorem c2_ttl_boundary_witness :
    (2 : ℚ) ≠ 0 ∧
      (((CacheManager.set ⟨[], 10⟩ "k" (5 : ℤ) 0).get "k" (0 + 1) (some 2)).map
        CacheHit.data = if (1 : ℚ) < 2 then some 5 else none) :=
  ⟨by decide, c2_ttl_boundary ⟨[], 10⟩ "k" 5 0 1 2 (by decide)⟩

/-- Counterexample to C2 as stated: with `maxAge = 0` and elapsed time `0 ≥ 0`
the claim demands `absent`, but the source replaces the falsy `0` by the
default TTL and returns the stored value. -/
theorem c2_counterexample :
    (0 : ℚ) ≤ 0 ∧
      ((CacheManager.set (⟨[], 10⟩ : CacheManager ℤ) "k" 7 0).get "k" 0 (some 0))
        ≠ none := by
  constructor
  · exact le_refl 0
  · intro h
    rw [CacheManager.get, CacheManager.set] at h
    simp only [lookupEntry_setEntry_self] at h
    norm_num at h
    exact Option.noConfusion h

/-- C10: a `maxAge` argument of `0` is falsy in `max_age_minutes or
self.default_ttl`, so it is replaced by the default TTL: `get(key, maxAge=0)`
behaves exactly like `get(key)` and returns the stored value whenever the
entry's age is strictly below the default TTL. -/
theorem c10_max_age_zero {V : Type} (s : CacheManager V) (k : String) (now : ℚ)
    (v : V) (ts : ℚ) (h : lookupEntry s.cache k = some (v, ts)) :
    s.get k now (some 0) = s.get k now none ∧
      ((s.get k now (some 0)).isSome ↔ now - ts < s.default_ttl) ∧
      (now - ts < s.default_ttl →
        (s.get k now (some 0)).map CacheHit.data = some v) := by
  have hget0 : s.get k now (some 0) =
      (if now - ts < s.default_ttl then
        some ⟨v, ts, round1 (now - ts), round1 (s.default_ttl - (now - ts))⟩
      else none) := by
    unfold CacheManager.get
    rw [h]
    dsimp only
    rw [if_pos (rfl : (0 : ℚ) = 0)]
  have hgetNone : s.get k now none =
      (if now - ts < s.default_ttl then
        some ⟨v, ts, round1 (now - ts), round1 (s.default_ttl - (now - ts))⟩
      else none) := by
    unfold CacheManager.get
    rw [h]
  refine ⟨hget0.trans hgetNone.symm, ?_, ?_⟩
  · rw [hget0]
    by_cases hlt : now - ts < s.default_ttl
    · simp [if_pos hlt, hlt]
    · simp [if_neg hlt, hlt]
  · intro hlt
    rw [hget0, if_pos hlt]
    rfl

/-- Witness for C10 at concrete inputs. -/
theorem c10_max_age_zero_witness :
    lookupEntry (V := ℤ) [("k", 7, 0)] "k" = some (7, 0) ∧
      ((⟨[("k", 7, 0)], 10⟩ : CacheManager ℤ).get "k" 3 (some 0)
        = (⟨[("k", 7, 0)], 10⟩ : CacheManager ℤ).get "k" 3 none) :=
  ⟨by simp [lookupEntry, List.find?],
    (c10_max_age_zero ⟨[("k", 7, 0)], 10⟩ "k" 3 7 0
      (by simp [lookupEntry, List.find?])).1⟩

/-- C8: for a non-empty pattern, `clear(pattern)` removes exactly the entries
whose key contains the pattern as a (case-sensitive) substring and leaves every
other entry unchanged, value and timestamp included; `clear()` with no pattern
removes all entries. -/
theorem c8_clear_pattern {V : Type} (s : CacheManager V) (p : String) (hp : p ≠ "") :
    (∀ e, e ∈ (s.clear (some p)).cache ↔
        e ∈ s.cache ∧ ¬ (p.toList <:+: e.1.toList)) ∧
      (s.clear none).cache = [] := by
  have hne : p.isEmpty = false := by
    rw [Bool.eq_false_iff]
    intro h
    exact hp ((String.isEmpty_iff p).mp h)
  constructor
  · intro e
    unfold CacheManager.clear
    dsimp only
    rw [hne]
    simp only [Bool.false_eq_true, if_false, mem_foldl_filter, List.mem_filter,
      List.mem_map]
    constructor
    · rintro ⟨he, hk⟩
      refine ⟨he, fun hinf => ?_⟩
      exact hk e.1 ⟨⟨e, he, rfl⟩, (subOf_iff _ _).mpr hinf⟩ rfl
    · rintro ⟨he, hninf⟩
      refine ⟨he, ?_⟩
      rintro k ⟨⟨e', he', rfl⟩, hsub⟩ hek
      exact hninf (by rw [hek]; exact (subOf_iff _ _).mp hsub)
  · rfl

/-- Witness for C8 at concrete inputs. -/
theorem c8_clear_pattern_witness :
    ("be" : String) ≠ "" ∧
      ((("alpha", 1, 0) ∈
          ((⟨[("alpha", 1, 0), ("beta", 2, 0)], 10⟩ : CacheManager ℤ).clear
            (some "be")).cache ↔
        ("alpha", 1, 0) ∈
            (⟨[("alpha", 1, 0), ("beta", 2, 0)], 10⟩ : CacheManager ℤ).cache ∧
          ¬ ("be".toList <:+: "alpha".toList))) :=
  ⟨by decide,
    (c8_clear_pattern ⟨[("alpha", 1, 0), ("beta", 2, 0)], 10⟩ "be"
      (by decide)).1 ("alpha", 1, 0)⟩

/-! ### Claims C7 and C4 -/
/-- C7: `aggregate([], daysBack)` returns the zero-filled report with the same
shape as the non-empty case — zero totals, empty collections, zero-filled
breakdown/percentages/response structures, `average_rating` absent — and the
`date_range` is computed by the same formula as for any input. -/
theorem c7_empty_input (d now : ℤ) (items : List AnalyzedItem) :
    (aggregate [] d now).total_mentions = 0 ∧
      (aggregate [] d now).average_sentiment_score = 0 ∧
      (aggregate [] d now).average_rating = none ∧
      (aggregate [] d now).sentiment_trend = [] ∧
      (aggregate [] d now).hot_topics = [] ∧
      (aggregate [] d now).action_required_count = 0 ∧
      (aggregate [] d now).action_required_items = [] ∧
      (aggregate [] d now).sentiment_breakdown = ⟨0, 0, 0⟩ ∧
      (aggregate [] d now).sentiment_percentages = ⟨0, 0, 0⟩ ∧
      (aggregate [] d now).response_stats = ⟨0, 0, 0, 0⟩ ∧
      (aggregate [] d now).category_breakdown = [] ∧
      (aggregate [] d now).platform_breakdown = [] ∧
      (aggregate items d now).date_range = ⟨now - d * 1440, now⟩ := by
  refine ⟨rfl, rfl, rfl, rfl, rfl, rfl, rfl, rfl, rfl, rfl, rfl, rfl, ?_⟩
  cases items with
  | nil => rfl
  | cons a l => rfl

/-- C4 (amended): `aggregate` is a deterministic function of its arguments
**and the clock reading** it takes from `datetime.now()`: calls with identical
items, `daysBack` and clock give equal reports, and every field except
`date_range` is independent of the clock; the input list is never mutated
(the model is pure).  As literally stated — equal reports from identical
`(items, daysBack)` alone — the claim fails, because `date_range` is derived
from the wall clock; see the counterexample. -/
theorem c4_deterministic_modulo_clock (items : List AnalyzedItem) (d n₁ n₂ : ℤ) :
    reportCore (aggregate items d n₁) = reportCore (aggregate items d n₂) := by
  cases items with
  | nil => rfl
  | cons a l => rfl

/-- Counterexample to C4 as stated: the same items and `daysBack` at two
different clock readings give different reports (their date ranges differ). -/
theorem c4_counterexample : aggregate [] 30 0 ≠ aggregate [] 30 1440 := by
  intro h
  have hdr := congrArg (fun r => r.date_range.end_date) h
  exact absurd hdr (by decide)

/-! ### Claims C5 and C9 -/
theorem sentCount_sum :
    ∀ (items : List AnalyzedItem), (∀ it ∈ items, (it.sentiment).isSome) →
      sentCount items .positive + sentCount items .neutral + sentCount items .negative
        = items.length := by
  intro items
  induction items with
  | nil => intro _; rfl
  | cons a l ih =>
    intro hs
    have hl := ih (fun it h => hs it (List.mem_cons_of_mem a h))
    have ha := hs a (List.mem_cons_self a l)
    unfold sentCount at hl ⊢
    rw [List.countP_cons, List.countP_cons, List.countP_cons]
    cases hsa : a.sentiment with
    | none => rw [hsa] at ha; cases ha
    | some s => cases s <;> simp [hsa] <;> omega

theorem abs_round1_sub (q : ℚ) : |round1 q - q| ≤ 1 / 20 := by
  unfold round1
  have h := abs_sub_round (q * 10)
  rw [abs_sub_comm] at h
  have heq : (round (q * 10) : ℚ) / 10 - q = ((round (q * 10) : ℚ) - q * 10) / 10 := by
    ring
  rw [heq, abs_div, abs_of_pos (show (0 : ℚ) < 10 by norm_num)]
  linarith

/-- C5 (amended): for a non-empty input in which **every item carries one of
the three recognized sentiments**, the three independently rounded
`sentiment_percentages` sum to a value in `[99.0, 101.0]`.  Without that
proviso the claim fails: an item whose sentiment is missing counts toward `N`
but toward no bucket, and the sum can be far below 99 (see counterexample). -/
theorem c5_percentage_tolerance (items : List AnalyzedItem) (d now : ℤ)
    (hne : items ≠ []) (hs : ∀ it ∈ items, (it.sentiment).isSome) :
    99 ≤ (aggregate items d now).sentiment_percentages.positive
        + (aggregate items d now).sentiment_percentages.neutral
        + (aggregate items d now).sentiment_percentages.negative ∧
      (aggregate items d now).sentiment_percentages.positive
        + (aggregate items d now).sentiment_percentages.neutral
        + (aggregate items d now).sentiment_percentages.negative ≤ 101 := by
  have hE : items.isEmpty = false := by
    rw [Bool.eq_false_iff]
    intro h
    exact hne (List.isEmpty_iff.mp h)
  have hagg : (aggregate items d now).sentiment_percentages = sentimentPercentages items := by
    simp only [aggregate, hE, Bool.false_eq_true, if_false]
  rw [hagg]
  have hn : (0 : ℚ) < (items.length : ℚ) := by
    have := List.length_pos.mpr hne
    exact_mod_cast this
  have hsum := sentCount_sum items hs
  have hc : (sentCount items .positive : ℚ) + (sentCount items .neutral : ℚ)
      + (sentCount items .negative : ℚ) = (items.length : ℚ) := by
    exact_mod_cast hsum
  set n : ℚ := (items.length : ℚ) with hn_def
  set x1 : ℚ := (sentCount items .positive : ℚ) / n * 100 with hx1
  set x2 : ℚ := (sentCount items .neutral : ℚ) / n * 100 with hx2
  set x3 : ℚ := (sentCount items .negative : ℚ) / n * 100 with hx3
  have h100 : x1 + x2 + x3 = 100 := by
    rw [hx1, hx2, hx3]
    field_simp
    linarith [hc]
  have b1 := abs_le.mp (abs_round1_sub x1)
  have b2 := abs_le.mp (abs_round1_sub x2)
  have b3 := abs_le.mp (abs_round1_sub x3)
  unfold sentimentPercentages
  constructor
  · dsimp only
    linarith [b1.1, b2.1, b3.1]
  · dsimp only
    linarith [b1.2, b2.2, b3.2]

/-- Witness for C5 at concrete inputs. -/
theorem c5_percentage_tolerance_witness :
    ([itemPos] : List AnalyzedItem) ≠ [] ∧ (∀ it ∈ [itemPos], (it.sentiment).isSome) ∧
      (99 ≤ (aggregate [itemPos] 30 0).sentiment_percentages.positive
          + (aggregate [itemPos] 30 0).sentiment_percentages.neutral
          + (aggregate [itemPos] 30 0).sentiment_percentages.negative ∧
        (aggregate [itemPos] 30 0).sentiment_percentages.positive
          + (aggregate [itemPos] 30 0).sentiment_percentages.neutral
          + (aggregate [itemPos] 30 0).sentiment_percentages.negative ≤ 101) :=
  ⟨by simp, by decide,
    c5_percentage_tolerance [itemPos] 30 0 (by simp) (by decide)⟩

/-- Counterexample to C5 as stated: a single item with a missing sentiment is
a non-empty input whose three percentages are all `0.0`, summing to `0`,
outside `[99.0, 101.0]`. -/
theorem c5_counterexample :
    ([baseItem] : List AnalyzedItem) ≠ [] ∧
      (aggregate [baseItem] 30 0).sentiment_percentages.positive
          + (aggregate [baseItem] 30 0).sentiment_percentages.neutral
          + (aggregate [baseItem] 30 0).sentiment_percentages.negative = 0 ∧
      ¬ (99 ≤ (0 : ℚ) ∧ (0 : ℚ) ≤ 101) := by
  refine ⟨by simp, ?_, by norm_num⟩
  have hagg : (aggregate [baseItem] 30 0).sentiment_percentages
      = sentimentPercentages [baseItem] := by
    simp only [aggregate, List.isEmpty_cons, Bool.false_eq_true, if_false]
  rw [hagg]
  have h1 : sentCount [baseItem] .positive = 0 := rfl
  have h2 : sentCount [baseItem] .neutral = 0 := rfl
  have h3 : sentCount [baseItem] .negative = 0 := rfl
  unfold sentimentPercentages
  rw [h1, h2, h3]
  dsimp only
  norm_num [round1]

theorem filter_rating_map_getD (items : List AnalyzedItem) :
    ((items.filter (fun it => it.rating.isSome)).map (fun it => it.rating.getD 0))
      = items.filterMap (fun it => it.rating) := by
  induction items with
  | nil => rfl
  | cons a l ih =>
    cases ha : a.rating with
    | none => simp [List.filter_cons, List.filterMap_cons, ha, ih]
    | some r => simp [List.filter_cons, List.filterMap_cons, ha, ih]

theorem length_le_sum_of_one_le (l : List ℚ) (h : ∀ r ∈ l, 1 ≤ r) :
    (l.length : ℚ) ≤ l.sum := by
  induction l with
  | nil => simp
  | cons a l ih =>
    simp only [List.length_cons, List.sum_cons]
    push_cast
    have hl := ih (fun r hr => h r (List.mem_cons_of_mem a hr))
    have ha := h a (List.mem_cons_self a l)
    linarith

/-- C9 (amended): `average_rating` is the arithmetic mean of `rating` over the
items that have one, **rounded to 1 decimal place**, and is absent (not zero)
when no item has a rating.  (The rounding is what the literal claim misses;
the `1 ≤ rating ≤ 5` hypothesis is the validated range of the pydantic field
and keeps the mean away from Python's falsy `0`.) -/
theorem c9_average_rating (items : List AnalyzedItem) (d now : ℤ)
    (hr : ∀ it ∈ items, ∀ r : ℚ, it.rating = some r → 1 ≤ r ∧ r ≤ 5) :
    (items.filterMap (fun it => it.rating) = [] →
        (aggregate items d now).average_rating = none) ∧
      (items.filterMap (fun it => it.rating) ≠ [] →
        (aggregate items d now).average_rating
          = some (round1 (mean (items.filterMap (fun it => it.rating))))) := by
  cases hitems : items with
  | nil =>
    constructor
    · intro _; rfl
    · intro h; exact absurd rfl h
  | cons a0 l0 =>
    rw [← hitems]
    have hE : items.isEmpty = false := by rw [hitems]; rfl
    have havg : (aggregate items d now).average_rating = avgRatingField items := by
      simp only [aggregate, hE, Bool.false_eq_true, if_false]
    rw [havg]
    unfold avgRatingField
    dsimp only
    have hlen : (items.filter (fun it => it.rating.isSome)).length
        = (items.filterMap (fun it => it.rating)).length := by
      rw [← filter_rating_map_getD, List.length_map]
    constructor
    · intro h0
      have hempty : (items.filter (fun it => it.rating.isSome)).isEmpty = true := by
        rw [List.isEmpty_iff, ← List.length_eq_zero, hlen, h0]
        rfl
      rw [hempty]
      rfl
    · intro hne
      have hfne : (items.filter (fun it => it.rating.isSome)).isEmpty = false := by
        rw [Bool.eq_false_iff]
        intro h
        rw [List.isEmpty_iff] at h
        apply hne
        rw [← List.length_eq_zero, ← hlen, h]
        rfl
      simp only [hfne, Bool.false_eq_true, if_false]
      have hmean : mean ((items.filter (fun it => it.rating.isSome)).map
          (fun it => it.rating.getD 0)) = mean (items.filterMap (fun it => it.rating)) := by
        rw [filter_rating_map_getD]
      rw [hmean]
      have hge : ∀ r ∈ items.filterMap (fun it => it.rating), (1 : ℚ) ≤ r := by
        intro r hrm
        rw [List.mem_filterMap] at hrm
        obtain ⟨it, hit, hsome⟩ := hrm
        exact (hr it hit r hsome).1
      have hlpos : (0 : ℚ) < ((items.filterMap (fun it => it.rating)).length : ℚ) := by
        have := List.length_pos.mpr hne
        exact_mod_cast this
      have hsum := length_le_sum_of_one_le _ hge
      have havgne : mean (items.filterMap (fun it => it.rating)) ≠ 0 := by
        unfold mean
        intro h0
        rcases div_eq_zero_iff.mp h0 with h0 | h0
        · have h1 : (1 : ℚ) ≤ ((items.filterMap (fun it => it.rating)).length : ℚ) := by
            have := List.length_pos.mpr hne
            exact_mod_cast this
          linarith
        · linarith
      rw [if_neg havgne]

/-- Witness for C9 at concrete inputs. -/
theorem c9_average_rating_witness :
    (∀ it ∈ [itemRated2], ∀ r : ℚ, it.rating = some r → 1 ≤ r ∧ r ≤ 5) ∧
      (([itemRated2].filterMap (fun it => it.rating)) ≠ [] →
        (aggregate [itemRated2] 30 0).average_rating
          = some (round1 (mean ([itemRated2].filterMap (fun it => it.rating))))) :=
  ⟨by decide, (c9_average_rating [itemRated2] 30 0 (by decide)).2⟩

/-- Counterexample to C9 as stated: for ratings `1, 1, 2` the mean is `4/3`,
but the report carries `round(4/3, 1) = 1.3 ≠ 4/3`. -/
theorem c9_counterexample :
    (aggregate [itemRated1, itemRated1, itemRated2] 30 0).average_rating
        = some (13 / 10) ∧
      (aggregate [itemRated1, itemRated1, itemRated2] 30 0).average_rating
        ≠ some ((1 + 1 + 2 : ℚ) / 3) := by
  have h := (c9_average_rating [itemRated1, itemRated1, itemRated2] 30 0 (by decide)).2
    (by decide)
  have hval : round1 (mean ([itemRated1, itemRated1, itemRated2].filterMap
      (fun it => it.rating))) = 13 / 10 := by
    have : ([itemRated1, itemRated1, itemRated2].filterMap (fun it => it.rating))
        = [1, 1, 2] := by decide
    rw [this]
    unfold mean round1
    norm_num [round_eq]
  constructor
  · rw [h, hval]
  · rw [h, hval]
    intro hc
    have := Option.some.inj hc
    norm_num at this

theorem find?_map_updateTD (acc : List (String × TopicData)) (t : String)
    (f : TopicData → TopicData) :
    (acc.map (fun kv => if kv.1 = t then (t, f kv.2) else kv)).find?
        (fun kv => decide (kv.1 = t))
      = (acc.find? (fun kv => decide (kv.1 = t))).map (fun kv => (t, f kv.2)) := by
  induction acc with
  | nil => rfl
  | cons a as ih =>
    by_cases ha : a.1 = t
    · simp [List.find?_cons, ha]
    · simp [List.find?_cons, ha, ih]

theorem find?_map_update_ne (acc : List (String × TopicData)) (t u : String)
    (hne : u ≠ t) (f : TopicData → TopicData) :
    (acc.map (fun kv => if kv.1 = t then (t, f kv.2) else kv)).find?
        (fun kv => decide (kv.1 = u))
      = acc.find? (fun kv => decide (kv.1 = u)) := by
  induction acc with
  | nil => rfl
  | cons a as ih =>
    by_cases ha : a.1 = t
    · have e₁ : (decide (((t, f a.2) : String × TopicData).1 = u)) = false :=
        decide_eq_false (fun hc => hne (Eq.symm hc))
      have e₂ : (decide (a.1 = u)) = false :=
        decide_eq_false (fun hc => hne (Eq.symm (ha.symm.trans hc)))
      rw [List.map_cons, if_pos ha]
      simp only [List.find?_cons, e₁, e₂]
      exact ih
    · by_cases hau : a.1 = u
      · rw [List.map_cons, if_neg ha]
        simp only [List.find?_cons, decide_eq_true hau]
      · rw [List.map_cons, if_neg ha]
        simp only [List.find?_cons, decide_eq_false hau]
        exact ih

theorem lookupTD_addTopic_self (acc : List (String × TopicData)) (t : String) (sc : ℚ) :
    lookupTD (addTopic acc t sc) t =
      (match lookupTD acc t with
        | some d => some ⟨d.count + 1, d.sentiment_scores ++ [sc]⟩
        | none => some ⟨1, [sc]⟩) := by
  unfold addTopic lookupTD
  by_cases h : acc.any (fun kv => decide (kv.1 = t))
  · rw [if_pos h, find?_map_updateTD acc t
      (fun d => ⟨d.count + 1, d.sentiment_scores ++ [sc]⟩)]
    cases hfind : acc.find? (fun kv => decide (kv.1 = t)) with
    | none =>
      exfalso
      rw [List.find?_eq_none] at hfind
      rw [List.any_eq_true] at h
      obtain ⟨kv, hkv, hk⟩ := h
      exact hfind kv hkv hk
    | some kv => rfl
  · rw [if_neg h]
    have hnone : acc.find? (fun kv => decide (kv.1 = t)) = none := by
      rw [List.find?_eq_none]
      intro kv hkv hk
      rw [List.any_eq_true] at h
      exact h ⟨kv, hkv, hk⟩
    rw [List.find?_append, hnone]
    simp [List.find?]

theorem lookupTD_addTopic_ne (acc : List (String × TopicData)) (t : String) (sc : ℚ)
    (u : String) (hne : u ≠ t) :
    lookupTD (addTopic acc t sc) u = lookupTD acc u := by
  unfold addTopic lookupTD
  by_cases h : acc.any (fun kv => decide (kv.1 = t))
  · rw [if_pos h, find?_map_update_ne acc t u hne
      (fun d => ⟨d.count + 1, d.sentiment_scores ++ [sc]⟩)]
  · rw [if_neg h]
    rw [List.find?_append]
    have hsingle : [(t, (⟨1, [sc]⟩ : TopicData))].find?
        (fun kv => decide (kv.1 = u)) = none := by
      rw [List.find?_cons_of_neg _ (by
        simp only [decide_eq_true_eq]
        exact fun hc => hne (Eq.symm hc))]
      rfl
    rw [hsingle]
    cases acc.find? (fun kv => decide (kv.1 = u)) <;> rfl

theorem keysND_addTopic (acc : List (String × TopicData)) (t : String) (sc : ℚ)
    (h : keysND acc) : keysND (addTopic acc t sc) := by
  unfold addTopic
  by_cases hany : acc.any (fun kv => decide (kv.1 = t))
  · rw [if_pos hany]
    unfold keysND at h ⊢
    have hkeys : (acc.map (fun kv => if kv.1 = t then (t, (⟨kv.2.count + 1,
        kv.2.sentiment_scores ++ [sc]⟩ : TopicData)) else kv)).map (fun kv => kv.1)
        = acc.map (fun kv => kv.1) := by
      rw [List.map_map]
      apply List.map_congr_left
      intro kv _
      by_cases hkv : kv.1 = t
      · simp [Function.comp, hkv]
      · simp [Function.comp, hkv]
    rw [hkeys]
    exact h
  · rw [if_neg hany]
    unfold keysND at h ⊢
    rw [List.map_append]
    rw [List.nodup_append]
    refine ⟨h, by simp, ?_⟩
    intro x hx hmem
    simp only [List.map_cons, List.map_nil, List.mem_singleton] at hmem
    subst hmem
    rw [List.mem_map] at hx
    obtain ⟨kv, hkv, hk⟩ := hx
    apply hany
    rw [List.any_eq_true]
    exact ⟨kv, hkv, by simp [hk]⟩

theorem topicFoldPairs_char :
    ∀ (ps : List (String × ℚ)) (acc : List (String × TopicData)), keysND acc →
      keysND (ps.foldl (fun a p => addTopic a p.1 p.2) acc) ∧
      ∀ t, lookupTD (ps.foldl (fun a p => addTopic a p.1 p.2) acc) t =
        (match lookupTD acc t with
          | some d => some ⟨d.count + cntKey ps t, d.sentiment_scores ++ scoresKey ps t⟩
          | none => if cntKey ps t = 0 then none
              else some ⟨cntKey ps t, scoresKey ps t⟩) := by
  intro ps
  induction ps with
  | nil =>
    intro acc hacc
    refine ⟨hacc, fun t => ?_⟩
    cases h : lookupTD acc t with
    | none => simp [cntKey, scoresKey, h]
    | some d => simp [cntKey, scoresKey, h]
  | cons p rest ih =>
    intro acc hacc
    rw [List.foldl_cons]
    obtain ⟨ihk, ihl⟩ := ih (addTopic acc p.1 p.2) (keysND_addTopic acc p.1 p.2 hacc)
    refine ⟨ihk, fun t => ?_⟩
    rw [ihl t]
    by_cases ht : p.1 = t
    · subst ht
      rw [lookupTD_addTopic_self]
      have hcnt : cntKey (p :: rest) p.1 = cntKey rest p.1 + 1 := by
        unfold cntKey
        rw [List.countP_cons]
        simp
      have hscs : scoresKey (p :: rest) p.1 = p.2 :: scoresKey rest p.1 := by
        unfold scoresKey
        rw [List.filter_cons]
        simp
      rw [hcnt, hscs]
      cases h : lookupTD acc p.1 with
      | none =>
        dsimp only
        rw [if_neg (by omega : ¬ (cntKey rest p.1 + 1 = 0))]
        have h1 : 1 + cntKey rest p.1 = cntKey rest p.1 + 1 := by omega
        rw [h1, List.singleton_append]
      | some d =>
        dsimp only
        have h1 : d.count + 1 + cntKey rest p.1 = d.count + (cntKey rest p.1 + 1) := by
          omega
        rw [h1, List.append_assoc, List.singleton_append]
    · rw [lookupTD_addTopic_ne acc p.1 p.2 t (fun hc => ht hc.symm)]
      have hcnt : cntKey (p :: rest) t = cntKey rest t := by
        unfold cntKey
        rw [List.countP_cons]
        simp [ht]
      have hscs : scoresKey (p :: rest) t = scoresKey rest t := by
        unfold scoresKey
        rw [List.filter_cons]
        simp [ht]
      rw [hcnt, hscs]

theorem inner_fold_eq (topics : List String) (sc : ℚ) (acc : List (String × TopicData)) :
    topics.foldl (fun a t => addTopic a t sc) acc
      = (topics.map (fun t => (t, sc))).foldl (fun a p => addTopic a p.1 p.2) acc := by
  rw [List.foldl_map]

theorem topicFold_eq_pairs (items : List AnalyzedItem) :
    topicFold items = (pairsOf items).foldl (fun a p => addTopic a p.1 p.2) [] := by
  suffices h : ∀ acc, items.foldl
      (fun acc it => it.topics.foldl (fun a t => addTopic a t it.sentiment_score) acc) acc
      = (pairsOf items).foldl (fun a p => addTopic a p.1 p.2) acc from h []
  induction items with
  | nil => intro acc; rfl
  | cons it rest ih =>
    intro acc
    simp only [List.foldl_cons, pairsOf, List.flatMap_cons, List.foldl_append]
    rw [inner_fold_eq]
    have hr := ih ((it.topics.map (fun t => (t, it.sentiment_score))).foldl
      (fun a p => addTopic a p.1 p.2) acc)
    simpa [pairsOf] using hr

theorem lookupTD_of_mem : ∀ (acc : List (String × TopicData)), keysND acc →
    ∀ (t : String) (d : TopicData), (t, d) ∈ acc → lookupTD acc t = some d := by
  intro acc
  induction acc with
  | nil => intro _ t d hmem; cases hmem
  | cons a as ih =>
    intro hnd t d hmem
    unfold keysND at hnd
    rw [List.map_cons, List.nodup_cons] at hnd
    obtain ⟨hnot, hnd'⟩ := hnd
    rcases List.mem_cons.mp hmem with heq | hmem'
    · subst heq
      simp [lookupTD, List.find?_cons]
    · have hat : (decide (a.1 = t)) = false := by
        apply decide_eq_false
        intro hc
        apply hnot
        rw [hc]
        exact List.mem_map.mpr ⟨(t, d), hmem', rfl⟩
      unfold lookupTD
      rw [List.find?_cons]
      rw [hat]
      exact ih hnd' t d hmem'

theorem keysND_topicFold (items : List AnalyzedItem) : keysND (topicFold items) := by
  rw [topicFold_eq_pairs]
  exact (topicFoldPairs_char (pairsOf items) [] (by simp [keysND])).1

theorem lookupTD_topicFold (items : List AnalyzedItem) (t : String) :
    lookupTD (topicFold items) t =
      (if cntKey (pairsOf items) t = 0 then none
        else some ⟨cntKey (pairsOf items) t, scoresKey (pairsOf items) t⟩) := by
  rw [topicFold_eq_pairs]
  have h := (topicFoldPairs_char (pairsOf items) [] (by simp [keysND])).2 t
  simpa using h

/-- C6: `hot_topics` has at most 10 entries, one per distinct topic; an entry
carries the topic's contribution count (once per occurrence an item lists, so
topics `["a","a","b"]` plus `["a"]` give `a` count 3) and the mean
`sentiment_score` of its contributions rounded to 2 decimals; the list is the
top-10 truncation of the stats sorted descending by count, where ties keep the
original encounter order (the stable-sort conjunct: any two entries ordered in
the encounter-ordered stats whose counts allow it stay in that order). -/
theorem c6_hot_topics (items : List AnalyzedItem) :
    (hotTopics items).length ≤ 10 ∧
      ((hotTopics items).map (fun e => e.topic)).Nodup ∧
      (hotTopics items).Pairwise (fun a b => b.count ≤ a.count) ∧
      (∀ e ∈ hotTopics items,
        e.count = cntKey (pairsOf items) e.topic ∧
          e.avg_sentiment = round2 (mean (scoresKey (pairsOf items) e.topic))) ∧
      (∀ a b : TopicStat, List.Sublist [a, b] (topicStatsBase items) →
        b.count ≤ a.count → List.Sublist [a, b] (hotTopicsSorted items)) ∧
      hotTopics items = (hotTopicsSorted items).take 10 ∧
      (hotTopics [{ baseItem with topics := ["a", "a", "b"] },
          { baseItem with topics := ["a"] }]).map (fun e => (e.topic, e.count))
        = [("a", 3), ("b", 1)] := by
  have htrans : ∀ (a b c : TopicStat), (fun a b : TopicStat =>
        decide (b.count ≤ a.count)) a b = true →
      (fun a b : TopicStat => decide (b.count ≤ a.count)) b c = true →
      (fun a b : TopicStat => decide (b.count ≤ a.count)) a c = true := by
    intro a b c hab hbc
    rw [decide_eq_true_eq] at hab hbc ⊢
    omega
  have htotal : ∀ (a b : TopicStat), ((fun a b : TopicStat =>
        decide (b.count ≤ a.count)) a b ||
      (fun a b : TopicStat => decide (b.count ≤ a.count)) b a) = true := by
    intro a b
    rcases Nat.le_total a.count b.count with h | h <;> simp [h]
  have hky := keysND_topicFold items
  refine ⟨List.length_take_le 10 _, ?_, ?_, ?_, ?_, rfl, ?_⟩
  · have hkeq : (topicStatsBase items).map (fun e => e.topic)
        = (topicFold items).map (fun kv => kv.1) := by
      unfold topicStatsBase
      rw [List.map_map]
      rfl
    have hbase : ((topicStatsBase items).map (fun e => e.topic)).Nodup := by
      rw [hkeq]
      exact hky
    have hsortnd : ((hotTopicsSorted items).map (fun e => e.topic)).Nodup := by
      have hperm := (List.mergeSort_perm (topicStatsBase items)
        (fun a b => decide (b.count ≤ a.count))).map (fun e => e.topic)
      exact (List.Perm.nodup_iff hperm).mpr hbase
    show (((hotTopicsSorted items).take 10).map (fun e => e.topic)).Nodup
    rw [List.map_take]
    exact List.Nodup.sublist (List.take_sublist _ _) hsortnd
  · have hsorted := List.sorted_mergeSort htrans htotal (topicStatsBase items)
    have hprop : (hotTopicsSorted items).Pairwise
        (fun a b : TopicStat => b.count ≤ a.count) := by
      refine List.Pairwise.imp ?_ hsorted
      intro a b h
      rw [decide_eq_true_eq] at h
      exact h
    exact List.Pairwise.sublist (List.take_sublist _ _) hprop
  · intro e he
    have hmemS : e ∈ hotTopicsSorted items := (List.take_sublist _ _).subset he
    have hmemB : e ∈ topicStatsBase items := by
      have := List.mem_mergeSort.mp hmemS
      exact this
    rw [topicStatsBase, List.mem_map] at hmemB
    obtain ⟨kv, hkv, hkve⟩ := hmemB
    have hlk : lookupTD (topicFold items) kv.1 = some kv.2 :=
      lookupTD_of_mem (topicFold items) hky kv.1 kv.2 hkv
    rw [lookupTD_topicFold] at hlk
    by_cases h0 : cntKey (pairsOf items) kv.1 = 0
    · rw [if_pos h0] at hlk
      cases hlk
    · rw [if_neg h0] at hlk
      have hkv2 : kv.2 = ⟨cntKey (pairsOf items) kv.1, scoresKey (pairsOf items) kv.1⟩ :=
        (Option.some.inj hlk).symm
      rw [← hkve]
      refine ⟨?_, ?_⟩
      · show kv.2.count = cntKey (pairsOf items) kv.1
        rw [hkv2]
      · show round2 (mean kv.2.sentiment_scores)
          = round2 (mean (scoresKey (pairsOf items) kv.1))
        rw [hkv2]
  · intro a b hsub hcnt
    exact List.pair_sublist_mergeSort htrans htotal (decide_eq_true hcnt) hsub
  · have hpair : List.Pairwise (fun a b : TopicStat => decide (b.count ≤ a.count) = true)
        (topicStatsBase [{ baseItem with topics := ["a", "a", "b"] },
          { baseItem with topics := ["a"] }]) := by decide
    have hss : hotTopicsSorted [{ baseItem with topics := ["a", "a", "b"] },
          { baseItem with topics := ["a"] }]
        = topicStatsBase [{ baseItem with topics := ["a", "a", "b"] },
          { baseItem with topics := ["a"] }] :=
      List.mergeSort_of_sorted hpair
    show ((hotTopicsSorted _).take 10).map (fun e => (e.topic, e.count)) = _
    rw [hss]
    decide

/-- Witness for C6 at concrete inputs. -/
theorem c6_hot_topics_witness :
    (hotTopics ([] : List AnalyzedItem)).length ≤ 10 ∧
      (hotTopics [{ baseItem with topics := ["a", "a", "b"] },
          { baseItem with topics := ["a"] }]).map (fun e => (e.topic, e.count))
        = [("a", 3), ("b", 1)] :=
  ⟨(c6_hot_topics []).1, (c6_hot_topics []).2.2.2.2.2.2⟩

theorem update_eq_cases {V E : Type} (f : ℕ → CallerSt V E) (i : ℕ) (c : CallerSt V E)
    (j : ℕ) : Function.update f i c j = if j = i then c else f j := by
  by_cases h : j = i
  · subst h
    rw [Function.update_same, if_pos rfl]
  · rw [Function.update_noteq h, if_neg h]

theorem sysInv_init {V E : Type} (oracle : ℕ → Outcome V E) (s : Sys V E)
    (h : initialSys s) : SysInv oracle s := by
  obtain ⟨hc, ha, hn, _, hcl⟩ := h
  refine ⟨?_, ?_, ?_, ?_⟩
  · rw [hn, hcl, ha]
    rfl
  · intro i t hi
    obtain ⟨fr, hfr⟩ := hc i
    rw [hfr] at hi
    cases hi
  · intro i j ti tj hi hj
    obtain ⟨fr, hfr⟩ := hc i
    rw [hfr] at hi
    cases hi
  · intro i t o hi
    obtain ⟨fr, hfr⟩ := hc i
    rw [hfr] at hi
    cases hi

theorem sysInv_callers_update {V E : Type} (oracle : ℕ → Outcome V E) (s : Sys V E)
    (i : ℕ) (c : CallerSt V E) (hinv : SysInv oracle s)
    (hnotown : ∀ t, c ≠ CallerSt.owner t)
    (hgen : ∀ t o, genOutcome c = some (t, o) → o = oracle t) :
    SysInv oracle { s with callers := Function.update s.callers i c } := by
  obtain ⟨h1, h2, h3, h4⟩ := hinv
  refine ⟨h1, ?_, ?_, ?_⟩
  · intro j t hj
    dsimp only at hj
    rw [update_eq_cases] at hj
    by_cases hji : j = i
    · rw [if_pos hji] at hj
      exact absurd hj (hnotown t)
    · rw [if_neg hji] at hj
      exact h2 j t hj
  · intro j k tj tk hj hk
    dsimp only at hj hk
    rw [update_eq_cases] at hj hk
    by_cases hji : j = i
    · rw [if_pos hji] at hj
      exact absurd hj (hnotown tj)
    · rw [if_neg hji] at hj
      by_cases hki : k = i
      · rw [if_pos hki] at hk
        exact absurd hk (hnotown tk)
      · rw [if_neg hki] at hk
        exact h3 j k tj tk hj hk
  · intro j t o hj
    dsimp only at hj
    rw [update_eq_cases] at hj
    by_cases hji : j = i
    · rw [if_pos hji] at hj
      exact hgen t o hj
    · rw [if_neg hji] at hj
      exact h4 j t o hj

theorem sysInv_close {V E : Type} (oracle : ℕ → Outcome V E) (s : Sys V E)
    (i t : ℕ) (c : CallerSt V E) (cacheNew : Option V) (hinv : SysInv oracle s)
    (hown : s.callers i = CallerSt.owner t)
    (hnotown : ∀ u, c ≠ CallerSt.owner u)
    (hgen : ∀ u o, genOutcome c = some (u, o) → o = oracle u) :
    SysInv oracle
      { s with
        callers := Function.update s.callers i c
        cache := cacheNew
        active := none
        closed := s.closed + 1 } := by
  obtain ⟨h1, h2, h3, h4⟩ := hinv
  have hact := (h2 i t hown).1
  refine ⟨?_, ?_, ?_, ?_⟩
  · show s.nextTask = s.closed + 1 + (if (none : Option ℕ).isSome then 1 else 0)
    have h1' : s.nextTask = s.closed + 1 := by
      rw [hact] at h1
      simpa using h1
    simpa using h1'
  · intro j u hj
    dsimp only at hj
    rw [update_eq_cases] at hj
    by_cases hji : j = i
    · rw [if_pos hji] at hj
      exact absurd hj (hnotown u)
    · rw [if_neg hji] at hj
      exact absurd (h3 j i u t hj hown) hji
  · intro j k tj tk hj hk
    dsimp only at hj hk
    rw [update_eq_cases] at hj hk
    by_cases hji : j = i
    · rw [if_pos hji] at hj
      exact absurd hj (hnotown tj)
    · rw [if_neg hji] at hj
      exact absurd (h3 j i tj t hj hown) hji
  · intro j u o hj
    dsimp only at hj
    rw [update_eq_cases] at hj
    by_cases hji : j = i
    · rw [if_pos hji] at hj
      exact hgen u o hj
    · rw [if_neg hji] at hj
      exact h4 j u o hj

theorem sysInv_step {V E : Type} (oracle : ℕ → Outcome V E) (s s' : Sys V E)
    (hinv : SysInv oracle s) (hstep : Step oracle s s') : SysInv oracle s' := by
  cases hstep with
  | startHit i v hi hc =>
    exact sysInv_callers_update oracle _ i _ hinv (fun t h => by cases h)
      (fun t o h => by cases h)
  | startJoin i fr t hi hcond hact =>
    exact sysInv_callers_update oracle _ i _ hinv (fun u h => by cases h)
      (fun u o h => by cases h)
  | startCompute i fr hi hcond hact =>
    obtain ⟨h1, h2, h3, h4⟩ := hinv
    refine ⟨?_, ?_, ?_, ?_⟩
    · show s.nextTask + 1 = s.closed + (if (some s.nextTask).isSome then 1 else 0)
      rw [hact] at h1
      simp only [Option.isSome_none, Bool.false_eq_true, if_false] at h1
      simpa using (by omega : s.nextTask + 1 = s.closed + 1)
    · intro j t hj
      dsimp only at hj
      rw [update_eq_cases] at hj
      by_cases hji : j = i
      · rw [if_pos hji] at hj
        cases hj
        exact ⟨rfl, Nat.lt_succ_self _⟩
      · rw [if_neg hji] at hj
        have hc := (h2 j t hj).1
        rw [hact] at hc
        cases hc
    · intro j k tj tk hj hk
      dsimp only at hj hk
      rw [update_eq_cases] at hj hk
      by_cases hji : j = i
      · by_cases hki : k = i
        · rw [hji, hki]
        · rw [if_neg hki] at hk
          have hc := (h2 k tk hk).1
          rw [hact] at hc
          cases hc
      · rw [if_neg hji] at hj
        have hc := (h2 j tj hj).1
        rw [hact] at hc
        cases hc
    · intro j t o hj
      dsimp only at hj
      rw [update_eq_cases] at hj
      by_cases hji : j = i
      · rw [if_pos hji] at hj
        cases hj
      · rw [if_neg hji] at hj
        exact h4 j t o hj
  | finishTask t hlt hnm =>
    exact hinv
  | resumeWait i t hi hf =>
    refine sysInv_callers_update oracle _ i _ hinv (fun u h => by cases h) ?_
    intro u o h
    cases h
    rfl
  | resumeOwnerOk i t v hi hf hok =>
    refine sysInv_close oracle s i t (CallerSt.doneFresh t v) (some v) hinv hi
      (fun u h => by cases h) ?_
    intro u o h
    cases h
    exact hok.symm
  | resumeOwnerErr i t e hi hf herr =>
    refine sysInv_close oracle s i t (CallerSt.doneFailed t e) s.cache hinv hi
      (fun u h => by cases h) ?_
    intro u o h
    cases h
    exact herr.symm
  | expire v hc =>
    exact hinv

theorem sysInv_reach {V E : Type} (oracle : ℕ → Outcome V E) (s : Sys V E)
    (h : Reach oracle s) : SysInv oracle s := by
  induction h with
  | base s hinit => exact sysInv_init oracle s hinit
  | step s s' _ hstep ih => exact sysInv_step oracle s s' ih hstep

/-- C1: under arbitrary interleavings of any number of callers of
`get_or_compute` on one key, task creations (`compute_fn` invocations) number
exactly one per generation window — `nextTask` always equals the closed
generations plus the open one — and any two callers whose results came from
the same generation observed the same result or the same failure. -/
theorem c1_coalescing {V E : Type} (oracle : ℕ → Outcome V E) (s : Sys V E)
    (h : Reach oracle s) :
    (s.nextTask = s.closed + (if s.active.isSome then 1 else 0)) ∧
      (∀ i j t o₁ o₂, genOutcome (s.callers i) = some (t, o₁) →
        genOutcome (s.callers j) = some (t, o₂) → o₁ = o₂) := by
  obtain ⟨h1, _, _, h4⟩ := sysInv_reach oracle s h
  exact ⟨h1, fun i j t o₁ o₂ hi hj => (h4 i t o₁ hi).trans (h4 j t o₂ hj).symm⟩

/-- A concrete two-caller coalescing run: caller 0 registers generation 0,
caller 1 joins it, the task finishes, both resume. -/
theorem w1reach : Reach w1oracle w1s5 := by
  have r0 : Reach w1oracle w1s0 :=
    Reach.base w1s0 ⟨fun i => ⟨false, rfl⟩, rfl, rfl, rfl, rfl⟩
  have r1 : Reach w1oracle w1s1 :=
    Reach.step w1s0 w1s1 r0 (Step.startCompute w1s0 0 false rfl (Or.inr rfl) rfl)
  have r2 : Reach w1oracle w1s2 :=
    Reach.step w1s1 w1s2 r1 (Step.startJoin w1s1 1 false 0 rfl (Or.inr rfl) rfl)
  have r3 : Reach w1oracle w1s3 :=
    Reach.step w1s2 w1s3 r2 (Step.finishTask w1s2 0 (by decide) (by decide))
  have r4 : Reach w1oracle w1s4 :=
    Reach.step w1s3 w1s4 r3 (Step.resumeWait w1s3 1 0 rfl (by decide))
  exact Reach.step w1s4 w1s5 r4 (Step.resumeOwnerOk w1s4 0 0 7 rfl (by decide) rfl)

/-- Witness for C1 on the concrete two-caller run. -/
theorem c1_coalescing_witness :
    (w1s5.nextTask = w1s5.closed + (if w1s5.active.isSome then 1 else 0)) ∧
      (Outcome.ok 7 : Outcome ℕ ℕ) = Outcome.ok 7 :=
  ⟨(c1_coalescing w1oracle w1s5 w1reach).1,
    (c1_coalescing w1oracle w1s5 w1reach).2 0 1 0 (Outcome.ok 7) (Outcome.ok 7)
      rfl rfl⟩

/-- C3: when `compute_fn` fails, the owner's resume re-raises that same
failure unwrapped (`doneFailed t e` with the oracle's `e`), stores no value
(the cache is untouched), and deregisters the in-flight entry; moreover every
step that takes the owner out of the `owner` state — success, failure, or
cancellation (an error outcome) — leaves `active_requests` empty, and a
subsequent caller's miss then starts a fresh computation whose task is not the
stale one. -/
theorem c3_failure_propagation {V E : Type} (oracle : ℕ → Outcome V E) (s : Sys V E)
    (i t : ℕ) (e : E) (hreach : Reach oracle s)
    (hown : s.callers i = CallerSt.owner t) (hfin : t ∈ s.finished)
    (herr : oracle t = Outcome.err e) :
    Step oracle s (failStep s i t e) ∧
      (failStep s i t e).callers i = CallerSt.doneFailed t e ∧
      (failStep s i t e).cache = s.cache ∧
      (failStep s i t e).active = none ∧
      (∀ s₂, Step oracle s s₂ → s₂.callers i ≠ CallerSt.owner t → s₂.active = none) ∧
      (∀ j fr, (failStep s i t e).callers j = CallerSt.start fr →
        (fr = true ∨ (failStep s i t e).cache = none) →
        Step oracle (failStep s i t e) (computeStep (failStep s i t e) j) ∧
          (computeStep (failStep s i t e) j).active = some s.nextTask ∧
          s.nextTask ≠ t) := by
  obtain ⟨h1, h2, h3, h4⟩ := sysInv_reach oracle s hreach
  have hact := (h2 i t hown).1
  have hlt := (h2 i t hown).2
  refine ⟨Step.resumeOwnerErr s i t e hown hfin herr, ?_, rfl, rfl, ?_, ?_⟩
  · show Function.update s.callers i (CallerSt.doneFailed t e) i = _
    rw [Function.update_same]
  · intro s₂ hstep hneq
    cases hstep with
    | startHit i' v hi' hc =>
      by_cases hii : i = i'
      · rw [← hii, hown] at hi'
        cases hi'
      · exfalso
        apply hneq
        show Function.update s.callers i' (CallerSt.doneCached v) i = _
        rw [Function.update_noteq hii]
        exact hown
    | startJoin i' fr t' hi' hcond hact' =>
      by_cases hii : i = i'
      · rw [← hii, hown] at hi'
        cases hi'
      · exfalso
        apply hneq
        show Function.update s.callers i' (CallerSt.waiting t') i = _
        rw [Function.update_noteq hii]
        exact hown
    | startCompute i' fr hi' hcond hact' =>
      exfalso
      rw [hact'] at hact
      cases hact
    | finishTask t' hlt' hnm =>
      exact absurd hown hneq
    | resumeWait i' t' hi' hf' =>
      by_cases hii : i = i'
      · rw [← hii, hown] at hi'
        cases hi'
      · exfalso
        apply hneq
        show Function.update s.callers i' (CallerSt.doneWaited t' (oracle t')) i = _
        rw [Function.update_noteq hii]
        exact hown
    | resumeOwnerOk i' t' v hi' hf' hok => rfl
    | resumeOwnerErr i' t' e' hi' hf' herr' => rfl
    | expire v hc =>
      exact absurd hown hneq
  · intro j fr hj hcond
    exact ⟨Step.startCompute (failStep s i t e) j fr hj hcond rfl, rfl, hlt.ne'⟩

/-- A concrete failing run: caller 0 registers generation 0, whose task fails. -/
theorem w3reach : Reach w3oracle w3s2 := by
  have r0 : Reach w3oracle w3s0 :=
    Reach.base w3s0 ⟨fun i => ⟨false, rfl⟩, rfl, rfl, rfl, rfl⟩
  have r1 : Reach w3oracle w3s1 :=
    Reach.step w3s0 w3s1 r0 (Step.startCompute w3s0 0 false rfl (Or.inr rfl) rfl)
  exact Reach.step w3s1 w3s2 r1 (Step.finishTask w3s1 0 (by decide) (by decide))

/-- Witness for C3 on the concrete failing run. -/
theorem c3_failure_propagation_witness :
    Step w3oracle w3s2 (failStep w3s2 0 0 42) ∧
      (failStep w3s2 0 0 42).callers 0 = CallerSt.doneFailed 0 42 ∧
      (failStep w3s2 0 0 42).cache = w3s2.cache ∧
      (failStep w3s2 0 0 42).active = none ∧
      (Step w3oracle (failStep w3s2 0 0 42) (computeStep (failStep w3s2 0 0 42) 1) ∧
        (computeStep (failStep w3s2 0 0 42) 1).active = some w3s2.nextTask ∧
        w3s2.nextTask ≠ 0) := by
  have h := c3_failure_propagation w3oracle w3s2 0 0 42 w3reach rfl (by decide) rfl
  exact ⟨h.1, h.2.1, h.2.2.1, h.2.2.2.1, h.2.2.2.2.2 1 false rfl (Or.inr rfl)⟩

end SocialPulse
